import Mathlib

/-!
# rocketrus: a logrus hook that batches log entries and posts them to RocketChat

A shallow embedding of `rocketrus.go`.

* Go strings are Lean strings; Go's `len(s)` on a string is the number of bytes
  of its UTF-8 encoding, `String.utf8ByteSize`.
* `int64` / `int` fields are integers; the one multiplication of the source
  (`time.Duration(rh.Duration) * time.Second`) wraps at 64 bits.
* `logrus.Level` is a `uint32`, here a natural number; `l+1` wraps at 32 bits.
* A slice is its elements together with its capacity.
* The REST client is the delivery sink: it records, in order, every message
  handed to `PostMessage`; the error `PostMessage` returns is discarded by the
  caller, so it is not modelled.
* What the libraries decide (`fmt.Sprint`, `Level.String`, `Time.String`,
  `Client.Login`, the growth policy of `append`, `logrus.AllLevels`) is a
  parameter.
* The worker loop `send` is a transition system: one step per `select` case taken.
-/

namespace Rocketrus

/-! ## logrus levels -/

/-- The type `logrus.Level` (a `uint32`). -/
abbrev Level := Nat

def PanicLevel : Level := 0
def FatalLevel : Level := 1
def ErrorLevel : Level := 2
def WarnLevel : Level := 3
def InfoLevel : Level := 4
def DebugLevel : Level := 5

/-- Slice expression `logrus.AllLevels[:l+1]` of `LevelThreshold`: `l+1` is computed in
`uint32`; the expression panics (`none`) when the bound exceeds the capacity of the table. -/
def LevelThreshold (AllLevels : List Level) (l : Level) : Option (List Level) :=
  let hi := (l + 1) % 2 ^ 32
  if hi ≤ AllLevels.length then some (AllLevels.take hi) else none

/-! ## RocketChat models -/

/-- The type `models.AttachmentField`. -/
structure AttachmentField where
  Short : Bool := false
  Title : String := ""
  Value : String := ""
deriving DecidableEq, Repr

/-- The fields of `models.Attachment` that the hook sets. -/
structure Attachment where
  Color : String := ""
  Title : String := ""
  Ts : String := ""
  Text : String := ""
  Fields : List AttachmentField := []
deriving DecidableEq, Repr

/-- A Go slice `[]models.Attachment`: its elements and its capacity. -/
structure Slice where
  elems : List Attachment := []
  cap : Nat := 0
deriving DecidableEq, Repr

/-- Go's `append(s, a)`: `growslice old wanted` is the capacity the runtime picks
when the backing array is full. -/
def Slice.append (growslice : Nat → Nat → Nat) (s : Slice) (a : Attachment) : Slice :=
  if s.elems.length < s.cap then { elems := s.elems ++ [a], cap := s.cap }
  else { elems := s.elems ++ [a], cap := growslice s.cap (s.elems.length + 1) }

/-- The type `models.PostMessage`, as far as the hook fills it. -/
structure PostMessage where
  Channel : String := ""
  Alias : String := ""
  Emoji : String := ""
  Avatar : String := ""
  Text : String := ""
  Attachments : Slice := {}
deriving DecidableEq, Repr

/-- The type `url.URL`, as far as `Run` fills it. -/
structure URL where
  Scheme : String := ""
  Host : String := ""
deriving DecidableEq, Repr

/-- The type `models.UserCredentials`. -/
structure UserCredentials where
  ID : String := ""
  Token : String := ""
  Email : String := ""
  Password : String := ""
deriving DecidableEq, Repr

/-- The REST client: where it points and, in order, the messages handed to
`PostMessage`. -/
structure Client where
  serverUrl : URL
  debug : Bool
  posted : List PostMessage := []
deriving DecidableEq, Repr

/-- The call `rest.NewClient(serverUrl, debug)`. -/
def NewClient (serverUrl : URL) (debug : Bool) : Client :=
  { serverUrl := serverUrl, debug := debug, posted := [] }

/-- The call `c.PostMessage(msg)`: the sink receives the message as it is at the call. -/
def Client.PostMessage (c : Client) (msg : PostMessage) : Client :=
  { c with posted := c.posted ++ [msg] }

/-! ## The hook -/

inductive Error where
  | NotRunningErr
  | other (text : String)
deriving DecidableEq, Repr

/-- A buffered channel `chan *models.Attachment`. -/
structure Chan where
  cap : Nat
  buf : List Attachment := []
deriving DecidableEq, Repr

/-- The type `RocketrusHook`; a `nil` pointer or channel is `none`. -/
structure RocketrusHook where
  HookURL : String := ""
  Channel : String := ""
  UserID : String := ""
  Token : String := ""
  Email : String := ""
  Password : String := ""
  AcceptedLevels : List Level := []
  Disabled : Bool := false
  Title : String := ""
  Alias : String := ""
  Emoji : String := ""
  Avatar : String := ""
  NotifyUsers : List String := []
  Duration : Int := 0
  Batch : Int := 0
  running : Bool := false
  msg : Option PostMessage := none
  msgChan : Option Chan := none
  UserCredentials : Option UserCredentials := none
  Client : Option Client := none
deriving DecidableEq, Repr

/-- The function `strings.Index` on character lists, counting from `i`. -/
def indexFrom (sub : List Char) : List Char → Nat → Option Nat
  | [], i => if sub = [] then some i else none
  | c :: cs, i => if sub.isPrefixOf (c :: cs) then some i else indexFrom sub cs (i + 1)

/-- The function `strings.Index`: `-1` when `sub` does not occur. -/
def Index (s sub : String) : Int :=
  match indexFrom sub.data s.data 0 with
  | some i => (i : Int)
  | none => -1

/-- The server URL that `Run` derives from `HookURL` (lines 63-74). -/
def serverUrlOf (HookURL : String) : URL :=
  let index := Index HookURL "://"
  if index > 0 then
    { Scheme := if "https".isPrefixOf HookURL then "https" else "http",
      Host := HookURL.drop (index.toNat + "://".length) }
  else
    { Scheme := "http", Host := HookURL }

/-- The mention string of `Run` (lines 94-98). -/
def atUsersOf (NotifyUsers : List String) : String :=
  if NotifyUsers.length > 0 then "@" ++ " @".intercalate NotifyUsers else ""

/-- The method `Run`. `Login` is the REST login call: it receives the client and
the credentials by pointer, so it returns both as it leaves them, with its error
(`none` for `nil`). On success the hook is returned with the worker `send` launched
on it. -/
def Run (Login : Client → UserCredentials → Client × UserCredentials × Option Error)
    (rh : RocketrusHook) : RocketrusHook × Option Error :=
  let client := NewClient (serverUrlOf rh.HookURL) false
  let creds : UserCredentials :=
    { ID := rh.UserID, Token := rh.Token, Email := rh.Email, Password := rh.Password }
  match Login client creds with
  | (client, creds, some err) =>
    ({ rh with Client := some client, UserCredentials := some creds }, some err)
  | (client, creds, none) =>
    let rh : RocketrusHook := { rh with Client := some client, UserCredentials := some creds }
    let rh : RocketrusHook := { rh with msgChan := some { cap := 16, buf := [] } }
    let rh : RocketrusHook := if rh.Duration = 0 then { rh with Duration := 10 } else rh
    let rh : RocketrusHook := if rh.Batch ≤ 0 then { rh with Batch := 8 } else rh
    let atUsers := atUsersOf rh.NotifyUsers
    let msg : PostMessage :=
      { Channel := rh.Channel, Alias := rh.Alias, Emoji := rh.Emoji, Avatar := rh.Avatar,
        Text := atUsers ++ "\n*" ++ rh.Title ++ " logs*" }
    let rh : RocketrusHook := { rh with msg := some msg }
    ({ rh with running := true }, none)

/-- The method `Levels`; `len` is 0 for a nil slice and for an empty one alike. -/
def Levels (AllLevels : List Level) (rh : RocketrusHook) : List Level :=
  if rh.AcceptedLevels.length = 0 then AllLevels else rh.AcceptedLevels

/-! ## The worker: `send` and `postMessage` -/

/-- A `time.Timer`: whether its channel `C` is non-nil, and the duration (in
nanoseconds) it was last set to. -/
structure Timer where
  C : Bool
  d : Int
deriving DecidableEq, Repr

/-- The method `timer.Reset(d)`. -/
def Timer.Reset (t : Timer) (d : Int) : Timer := { t with d := d }

/-- Two's-complement wrap of an integer to `int64`. -/
def wrap64 (x : Int) : Int := (x + 2 ^ 63) % 2 ^ 64 - 2 ^ 63

/-- The state of the goroutine `send`: the fields of the hook it uses and its locals. -/
structure Worker where
  Batch : Int
  msg : PostMessage
  Client : Client
  timer : Timer
  duration : Int
deriving DecidableEq, Repr

/-- The prologue of `send` (lines 114-124) on the hook that `Run` prepared;
`none` when `Run` did not set `msg` and `Client`. -/
def sendInit (rh : RocketrusHook) : Option Worker :=
  match rh.msg, rh.Client with
  | some msg, some client =>
    if rh.Duration < 0 then
      some { Batch := rh.Batch, msg := msg, Client := client,
             timer := { C := false, d := 0 }, duration := 0 }
    else
      let duration := wrap64 (rh.Duration * 1000000000)
      some { Batch := rh.Batch, msg := msg, Client := client,
             timer := { C := true, d := duration }, duration := duration }
  | _, _ => none

/-- The method `postMessage`. -/
def postMessage (w : Worker) : Worker :=
  let client := w.Client.PostMessage w.msg
  let atts : Slice := { elems := [], cap := w.msg.Attachments.cap }
  let atts : Slice := if atts.cap > 1024 then { elems := [], cap := 16 } else atts
  { w with Client := client, msg := { w.msg with Attachments := atts } }

/-- Line 129: `rh.msg.Attachments = append(rh.msg.Attachments, *msg)`. -/
def appendMsg (growslice : Nat → Nat → Nat) (w : Worker) (a : Attachment) : Worker :=
  { w with msg := { w.msg with Attachments := w.msg.Attachments.append growslice a } }

/-- The case `msg := <-rh.msgChan` of the loop (lines 128-133). -/
def onRecv (growslice : Nat → Nat → Nat) (w : Worker) (a : Attachment) : Worker :=
  let w := appendMsg growslice w a
  if (w.msg.Attachments.elems.length : Int) ≥ w.Batch then
    let w := postMessage w
    { w with timer := w.timer.Reset w.duration }
  else w

/-- The case `<-timer.C` of the loop (lines 134-141). -/
def onTimer (w : Worker) : Worker :=
  if w.msg.Attachments.elems.length = 0 then
    { w with timer := w.timer.Reset w.duration }
  else
    let w := postMessage w
    { w with timer := w.timer.Reset w.duration }

/-- What the `select` of the worker loop receives. The timer case is only taken
when the timer channel is non-nil. -/
inductive Event where
  | recv (a : Attachment)
  | tick
deriving DecidableEq, Repr

/-- One iteration of the loop of `send`. -/
def step (growslice : Nat → Nat → Nat) (w : Worker) : Event → Worker
  | .recv a => onRecv growslice w a
  | .tick => onTimer w

/-- The loop of `send` over a finite sequence of events. -/
def run (growslice : Nat → Nat → Nat) (w : Worker) (es : List Event) : Worker :=
  es.foldl (step growslice) w

/-- The pending batch `rh.msg.Attachments`. -/
def pending (w : Worker) : List Attachment := w.msg.Attachments.elems

/-- The attachments of the messages posted so far, batch by batch. -/
def postedBatches (w : Worker) : List (List Attachment) :=
  w.Client.posted.map (fun m => m.Attachments.elems)

/-- The attachments an event sequence delivers to the worker, in arrival order. -/
def received : List Event → List Attachment
  | [] => []
  | .recv a :: es => a :: received es
  | .tick :: es => received es

/-! ## `Fire` -/

/-- Library renderings used by `Fire`: `Level.String`, `Time.String`, `fmt.Sprint`. -/
structure Fmt (Time Value : Type) where
  LevelString : Level → String
  TimeString : Time → String
  Sprint : Value → String

/-- The type `logrus.Entry`; `Data` lists the key/value pairs of the map in the
order the `range` loop visits them. -/
structure Entry (Time Value : Type) where
  Level : Level
  Time : Time
  Message : String
  Data : List (String × Value)

/-- The `switch e.Level` of `Fire` (lines 171-181). -/
def color (l : Level) : String :=
  if l = DebugLevel then "purple"
  else if l = InfoLevel then "green"
  else if l = ErrorLevel ∨ l = FatalLevel ∨ l = PanicLevel then "red"
  else "yellow"

/-- The body of the `range e.Data` loop (lines 194-201). -/
def mkField {Time Value : Type} (lib : Fmt Time Value) (kv : String × Value) :
    AttachmentField :=
  let f : AttachmentField := { Title := kv.1, Value := lib.Sprint kv.2 }
  if f.Value.utf8ByteSize ≤ 20 then { f with Short := true } else f

/-- The attachment `Fire` builds from an entry (lines 171-204). -/
def format {Time Value : Type} (lib : Fmt Time Value) (e : Entry Time Value) : Attachment :=
  let msg : Attachment :=
    { Color := color e.Level, Title := lib.LevelString e.Level ++ " log",
      Ts := lib.TimeString e.Time, Text := e.Message }
  if e.Data.length > 0 then { msg with Fields := e.Data.map (mkField lib) } else msg

/-- How a call of `Fire` ends: it returns, or it is parked in the channel send
(the channel is full or nil). -/
inductive FireResult where
  | returned (rh : RocketrusHook) (err : Option Error)
  | blocked (rh : RocketrusHook) (msg : Attachment)
deriving DecidableEq, Repr

/-- The method `Fire`. -/
def Fire {Time Value : Type} (lib : Fmt Time Value) (rh : RocketrusHook)
    (e : Entry Time Value) : FireResult :=
  if rh.Disabled then .returned rh none
  else if !rh.running then .returned rh (some Error.NotRunningErr)
  else
    let msg := format lib e
    match rh.msgChan with
    | some ch =>
      if ch.buf.length < ch.cap then
        .returned { rh with msgChan := some { ch with buf := ch.buf ++ [msg] } } none
      else .blocked rh msg
    | none => .blocked rh msg

/-- The contents of the inbound queue of a hook. -/
def queued (rh : RocketrusHook) : List Attachment :=
  match rh.msgChan with
  | some ch => ch.buf
  | none => []

/-- The hook a call of `Fire` leaves behind. -/
def FireResult.hook : FireResult → RocketrusHook
  | .returned rh _ => rh
  | .blocked rh _ => rh

/-! ## Concrete inputs -/

/-- A growth policy for `append`: double the capacity, or take what is needed. -/
def doubling (old wanted : Nat) : Nat := max (2 * old) wanted

def att1 : Attachment := { Color := "green", Title := "info log", Text := "one" }
def att2 : Attachment := { Color := "red", Title := "error log", Text := "two" }
def att3 : Attachment := { Color := "yellow", Title := "warning log", Text := "three" }

/-- A worker as `Run` followed by the prologue of `send` leaves it, threshold 2. -/
def worker2 : Worker :=
  { Batch := 2, msg := { Channel := "logs", Text := "\n* logs*" },
    Client := NewClient { Scheme := "http", Host := "chat.local" } false,
    timer := { C := true, d := 10000000000 }, duration := 10000000000 }

/-- The worker `worker2` with one attachment pending. -/
def worker2one : Worker := appendMsg doubling worker2 att1

/-- Renderings over string-valued entries: `fmt.Sprint` of a string is the string. -/
def strFmt : Fmt String String :=
  { LevelString := fun l =>
      if l = PanicLevel then "panic" else if l = FatalLevel then "fatal"
      else if l = ErrorLevel then "error" else if l = WarnLevel then "warning"
      else if l = InfoLevel then "info" else if l = DebugLevel then "debug"
      else if l = 6 then "trace" else "unknown",
    TimeString := id, Sprint := id }

/-- A debug entry whose field value has 11 characters and 22 bytes. -/
def entryAccents : Entry String String :=
  { Level := DebugLevel, Time := "2019-01-01 00:00:00", Message := "m",
    Data := [("k", "ééééééééééé")] }

/-- A hook that is disabled and on which `Run` was never called. -/
def hookDisabled : RocketrusHook := { HookURL := "chat.local", Disabled := true }

/-- A hook on which `Run` was never called. -/
def hookFresh : RocketrusHook := { HookURL := "https://chat.local", Batch := -3 }

/-- A login call that succeeds and leaves client and credentials as they are. -/
def loginOk (c : Client) (u : UserCredentials) : Client × UserCredentials × Option Error :=
  (c, u, none)

/-- The table `logrus.AllLevels` of logrus 1.2 and later (panic, fatal, error,
warning, info, debug, trace). -/
def allLevels7 : List Level := [0, 1, 2, 3, 4, 5, 6]

/-- The level `logrus.TraceLevel` of logrus 1.2 and later, one below debug; the
source never names it. -/
def TraceLevel : Level := 6

/-- The lowest severity tier of a level table: its last entry, the table running
from the most severe level (panic) down. -/
def lowestTier (AllLevels : List Level) : Option Level := AllLevels.getLast?

/-- A trace entry without fields. -/
def entryTrace : Entry String String :=
  { Level := TraceLevel, Time := "2019-01-01 00:00:00", Message := "m", Data := [] }

/-! ## Worker lemmas -/

theorem pending_postMessage (w : Worker) : pending (postMessage w) = [] := by
  unfold pending postMessage
  dsimp only
  split <;> rfl

theorem posted_postMessage (w : Worker) :
    (postMessage w).Client.posted = w.Client.posted ++ [w.msg] := rfl

theorem Batch_postMessage (w : Worker) : (postMessage w).Batch = w.Batch := rfl

theorem pending_appendMsg (g : Nat → Nat → Nat) (w : Worker) (a : Attachment) :
    pending (appendMsg g w a) = pending w ++ [a] := by
  unfold pending appendMsg Slice.append
  dsimp only
  split <;> rfl

theorem appendMsg_eq (g : Nat → Nat → Nat) (w : Worker) (a : Attachment) :
    ∃ c, appendMsg g w a =
      { w with msg := { w.msg with Attachments := ⟨pending w ++ [a], c⟩ } } := by
  unfold pending appendMsg Slice.append
  dsimp only
  split
  · exact ⟨_, rfl⟩
  · exact ⟨_, rfl⟩

theorem onRecv_below (g : Nat → Nat → Nat) (w : Worker) (a : Attachment)
    (h : ((pending w).length : Int) + 1 < w.Batch) : onRecv g w a = appendMsg g w a := by
  have hp := pending_appendMsg g w a
  have hb : (appendMsg g w a).Batch = w.Batch := rfl
  unfold onRecv
  dsimp only
  rw [if_neg]
  have : ((pending (appendMsg g w a)).length : Int) < (appendMsg g w a).Batch := by
    rw [hp, hb]; simp; omega
  unfold pending at this
  omega

theorem onRecv_reach (g : Nat → Nat → Nat) (w : Worker) (a : Attachment)
    (h : w.Batch ≤ ((pending w).length : Int) + 1) :
    onRecv g w a =
      { postMessage (appendMsg g w a) with
        timer := (postMessage (appendMsg g w a)).timer.Reset
          (postMessage (appendMsg g w a)).duration } := by
  have hp := pending_appendMsg g w a
  have hb : (appendMsg g w a).Batch = w.Batch := rfl
  unfold onRecv
  dsimp only
  rw [if_pos]
  have : (appendMsg g w a).Batch ≤ ((pending (appendMsg g w a)).length : Int) := by
    rw [hp, hb]; simp; omega
  unfold pending at this
  omega

theorem run_nil (g : Nat → Nat → Nat) (w : Worker) : run g w [] = w := rfl

theorem run_cons (g : Nat → Nat → Nat) (w : Worker) (e : Event) (es : List Event) :
    run g w (e :: es) = run g (step g w e) es := rfl

theorem run_append (g : Nat → Nat → Nat) (w : Worker) (es fs : List Event) :
    run g w (es ++ fs) = run g (run g w es) fs := by
  unfold run
  exact List.foldl_append _ _ _ _

/-- Receiving attachments while the batch stays below the threshold only appends them. -/
theorem run_recv_below (g : Nat → Nat → Nat) (as : List Attachment) :
    ∀ w : Worker, ((pending w).length : Int) + as.length < w.Batch →
      ∃ c, run g w (as.map Event.recv) =
        { w with msg := { w.msg with Attachments := ⟨pending w ++ as, c⟩ } } := by
  induction as with
  | nil =>
    intro w _
    exact ⟨w.msg.Attachments.cap, by simp [run_nil, pending]⟩
  | cons a rest ih =>
    intro w h
    simp only [List.map_cons, run_cons, step, List.length_cons, Nat.cast_add, Nat.cast_one] at h ⊢
    rw [onRecv_below g w a (by omega)]
    obtain ⟨c1, h1⟩ := appendMsg_eq g w a
    have hp := pending_appendMsg g w a
    have hb : (appendMsg g w a).Batch = w.Batch := rfl
    obtain ⟨c, hc⟩ := ih (appendMsg g w a) (by rw [hp, hb]; simp; omega)
    refine ⟨c, ?_⟩
    rw [hc, hp, h1]
    simp

theorem pending_onTimer (w : Worker) : pending (onTimer w) = [] := by
  unfold onTimer
  split
  · next h => exact List.length_eq_zero.mp h
  · exact pending_postMessage w

theorem posted_onTimer (w : Worker) :
    (onTimer w).Client.posted =
      w.Client.posted ++ (if pending w = [] then [] else [w.msg]) := by
  unfold onTimer
  split
  · next h =>
    have : pending w = [] := List.length_eq_zero.mp h
    simp [this]
  · next h =>
    have : pending w ≠ [] := fun hp => h (List.length_eq_zero.mpr hp)
    simp [this, posted_postMessage]

theorem Batch_step (g : Nat → Nat → Nat) (w : Worker) (e : Event) :
    (step g w e).Batch = w.Batch := by
  cases e with
  | recv a =>
    unfold step onRecv
    dsimp only
    split <;> rfl
  | tick =>
    unfold step onTimer
    dsimp only
    split <;> rfl

theorem Batch_run (g : Nat → Nat → Nat) (es : List Event) :
    ∀ w : Worker, (run g w es).Batch = w.Batch := by
  induction es with
  | nil => intro w; rfl
  | cons e es ih => intro w; rw [run_cons, ih, Batch_step]

/-- One step extends the posted log by batches that, followed by the new pending
batch, spell the old pending batch followed by what the step received. -/
theorem step_fifo (g : Nat → Nat → Nat) (w : Worker) (e : Event) :
    ∃ new : List PostMessage, (step g w e).Client.posted = w.Client.posted ++ new ∧
      (new.map (fun m => m.Attachments.elems)).flatten ++ pending (step g w e) =
        pending w ++ received [e] := by
  cases e with
  | recv a =>
    by_cases h : ((pending w).length : Int) + 1 < w.Batch
    · refine ⟨[], ?_, ?_⟩
      · simp only [step]
        rw [onRecv_below g w a h]
        simp [appendMsg]
      · simp only [step]
        rw [onRecv_below g w a h, pending_appendMsg]
        simp [received]
    · refine ⟨[(appendMsg g w a).msg], ?_, ?_⟩
      · simp only [step]
        rw [onRecv_reach g w a (by omega)]
        rfl
      · simp only [step]
        rw [onRecv_reach g w a (by omega)]
        have h1 : pending { postMessage (appendMsg g w a) with
            timer := (postMessage (appendMsg g w a)).timer.Reset
              (postMessage (appendMsg g w a)).duration } = [] :=
          pending_postMessage (appendMsg g w a)
        rw [h1]
        have h2 := pending_appendMsg g w a
        unfold pending at h2
        simp [received, h2, pending]
  | tick =>
    refine ⟨if pending w = [] then [] else [w.msg], posted_onTimer w, ?_⟩
    simp only [step]
    rw [pending_onTimer]
    by_cases h : pending w = []
    · simp [h, received]
    · rw [if_neg h]
      simp [received, pending]

theorem run_fifo (g : Nat → Nat → Nat) (es : List Event) :
    ∀ w : Worker, ∃ new : List PostMessage,
      (run g w es).Client.posted = w.Client.posted ++ new ∧
      (new.map (fun m => m.Attachments.elems)).flatten ++ pending (run g w es) =
        pending w ++ received es := by
  induction es with
  | nil => intro w; exact ⟨[], by simp [run_nil], by simp [run_nil, received]⟩
  | cons e es ih =>
    intro w
    obtain ⟨n1, hp1, hf1⟩ := step_fifo g w e
    obtain ⟨n2, hp2, hf2⟩ := ih (step g w e)
    refine ⟨n1 ++ n2, ?_, ?_⟩
    · rw [run_cons, hp2, hp1, List.append_assoc]
    · rw [run_cons, List.map_append, List.flatten_append, List.append_assoc, hf2,
        ← List.append_assoc, hf1]
      cases e <;> simp [received]

/-- After a step from a state below the threshold the batch is below the threshold. -/
theorem step_below (g : Nat → Nat → Nat) (w : Worker) (e : Event) (hB : 1 ≤ w.Batch) :
    ((pending (step g w e)).length : Int) < w.Batch := by
  cases e with
  | recv a =>
    by_cases h : ((pending w).length : Int) + 1 < w.Batch
    · simp only [step]
      rw [onRecv_below g w a h, pending_appendMsg]
      simp
      omega
    · simp only [step]
      rw [onRecv_reach g w a (by omega)]
      have h1 : pending { postMessage (appendMsg g w a) with
          timer := (postMessage (appendMsg g w a)).timer.Reset
            (postMessage (appendMsg g w a)).duration } = [] :=
        pending_postMessage (appendMsg g w a)
      rw [h1]
      simp
      omega
  | tick =>
    simp only [step]
    rw [pending_onTimer]
    simp
    omega

theorem run_below (g : Nat → Nat → Nat) (es : List Event) :
    ∀ w : Worker, 1 ≤ w.Batch → ((pending w).length : Int) < w.Batch →
      ((pending (run g w es)).length : Int) < w.Batch := by
  induction es with
  | nil => intro w _ h; exact h
  | cons e es ih =>
    intro w hB _
    rw [run_cons]
    have := ih (step g w e) (by rw [Batch_step]; exact hB)
      (by rw [Batch_step]; exact step_below g w e hB)
    rw [Batch_step] at this
    exact this

/-! ## Size-triggered flush -/

/-- C1. Size-triggered flush: with threshold `B ≥ 1`, an empty pending batch and `B`
attachments received with no timer expiry in between, the worker posts exactly one
message, whose attachments are the received ones in arrival order; nothing is posted
after any proper prefix of the arrivals; and the pending batch is empty afterwards. -/
theorem size_triggered_flush (growslice : Nat → Nat → Nat) (w : Worker)
    (as : List Attachment) (hB : 1 ≤ w.Batch) (hempty : pending w = [])
    (hlen : (as.length : Int) = w.Batch) :
    (∃ c, (run growslice w (as.map Event.recv)).Client.posted =
        w.Client.posted ++ [{ w.msg with Attachments := ⟨as, c⟩ }]) ∧
      pending (run growslice w (as.map Event.recv)) = [] ∧
      ∀ k, k < as.length →
        (run growslice w ((as.take k).map Event.recv)).Client.posted = w.Client.posted := by
  have hne : as ≠ [] := by
    intro h
    rw [h] at hlen
    simp at hlen
    omega
  refine ⟨?_, ?_, ?_⟩
  · obtain ⟨c, hc⟩ := run_recv_below growslice as.dropLast w (by
      rw [hempty]
      have := List.length_dropLast as
      have hpos := List.length_pos.mpr hne
      simp
      omega)
    have hsplit : as.map Event.recv =
        as.dropLast.map Event.recv ++ [Event.recv (as.getLast hne)] := by
      conv_lhs => rw [← List.dropLast_append_getLast hne]
      simp
    rw [hsplit, run_append, hc, run_cons, run_nil, step]
    rw [hempty, List.nil_append] at hc ⊢
    set w1 : Worker := { w with msg := { w.msg with Attachments := ⟨as.dropLast, c⟩ } }
      with hw1
    have hp1 : pending w1 = as.dropLast := rfl
    have hb1 : w1.Batch = w.Batch := rfl
    rw [onRecv_reach growslice w1 _ (by
      rw [hp1, hb1, List.length_dropLast]
      have hpos := List.length_pos.mpr hne
      omega)]
    obtain ⟨c2, h2⟩ := appendMsg_eq growslice w1 (as.getLast hne)
    refine ⟨c2, ?_⟩
    rw [h2, hp1, List.dropLast_append_getLast hne]
    rfl
  · obtain ⟨c, hc⟩ := run_recv_below growslice as.dropLast w (by
      rw [hempty]
      have := List.length_dropLast as
      have hpos := List.length_pos.mpr hne
      simp
      omega)
    have hsplit : as.map Event.recv =
        as.dropLast.map Event.recv ++ [Event.recv (as.getLast hne)] := by
      conv_lhs => rw [← List.dropLast_append_getLast hne]
      simp
    rw [hsplit, run_append, hc, run_cons, run_nil, step]
    rw [hempty, List.nil_append]
    set w1 : Worker := { w with msg := { w.msg with Attachments := ⟨as.dropLast, c⟩ } }
      with hw1
    have hp1 : pending w1 = as.dropLast := rfl
    have hb1 : w1.Batch = w.Batch := rfl
    rw [onRecv_reach growslice w1 _ (by
      rw [hp1, hb1, List.length_dropLast]
      have hpos := List.length_pos.mpr hne
      omega)]
    exact pending_postMessage _
  · intro k hk
    obtain ⟨c, hc⟩ := run_recv_below growslice (as.take k) w (by
      rw [hempty, List.length_take]
      simp
      omega)
    rw [hc]

/-- Witness for C1: threshold 2 and two attachments. -/
theorem size_triggered_flush_witness :
    (∃ c, (run doubling worker2 ([att1, att2].map Event.recv)).Client.posted =
        worker2.Client.posted ++ [{ worker2.msg with Attachments := ⟨[att1, att2], c⟩ }]) ∧
      pending (run doubling worker2 ([att1, att2].map Event.recv)) = [] ∧
      ∀ k, k < [att1, att2].length →
        (run doubling worker2 (([att1, att2].take k).map Event.recv)).Client.posted =
          worker2.Client.posted :=
  size_triggered_flush doubling worker2 [att1, att2] (by decide) (by decide) (by decide)

/-! ## Timer expiry -/

/-- C2. Timer-expiry step: when the timer fires on an empty batch the worker posts
nothing and the batch stays empty; on a non-empty batch it posts exactly one message,
the current one, which carries the pending attachments in order, and the batch is empty
afterwards; so whatever a timer expiry posts has a non-empty batch. -/
theorem timer_expiry_step (w : Worker) :
    (pending w = [] →
        (onTimer w).Client.posted = w.Client.posted ∧ pending (onTimer w) = []) ∧
      (pending w ≠ [] →
        (onTimer w).Client.posted = w.Client.posted ++ [w.msg] ∧
          w.msg.Attachments.elems = pending w ∧ pending (onTimer w) = []) ∧
      (∀ new : List PostMessage, (onTimer w).Client.posted = w.Client.posted ++ new →
        ∀ p ∈ new, p.Attachments.elems ≠ []) := by
  refine ⟨?_, ?_, ?_⟩
  · intro h
    refine ⟨?_, pending_onTimer w⟩
    rw [posted_onTimer, if_pos h, List.append_nil]
  · intro h
    refine ⟨?_, rfl, pending_onTimer w⟩
    rw [posted_onTimer, if_neg h]
  · intro new hnew p hp
    rw [posted_onTimer] at hnew
    have hnew2 := List.append_cancel_left hnew
    by_cases h : pending w = []
    · rw [if_pos h] at hnew2
      rw [← hnew2] at hp
      simp at hp
    · rw [if_neg h] at hnew2
      rw [← hnew2] at hp
      simp at hp
      rw [hp]
      exact h

/-- Witness for C2: the timer fires with one attachment pending. -/
theorem timer_expiry_step_witness :
    pending worker2one ≠ [] ∧
      (onTimer worker2one).Client.posted = worker2one.Client.posted ++ [worker2one.msg] ∧
      worker2one.msg.Attachments.elems = pending worker2one ∧
      pending (onTimer worker2one) = [] :=
  ⟨by decide, (timer_expiry_step worker2one).2.1 (by decide)⟩

/-! ## FIFO delivery -/

/-- C3. FIFO delivery: over any finite sequence of worker events processed from an empty
batch, the batches posted during the run, concatenated in posting order and followed by
the still-pending batch, are exactly the attachments received, in arrival order. -/
theorem fifo_delivery (growslice : Nat → Nat → Nat) (w : Worker) (es : List Event)
    (hempty : pending w = []) :
    ∃ new : List PostMessage,
      (run growslice w es).Client.posted = w.Client.posted ++ new ∧
      (new.map (fun m => m.Attachments.elems)).flatten ++ pending (run growslice w es) =
        received es := by
  obtain ⟨new, hp, hf⟩ := run_fifo growslice es w
  rw [hempty, List.nil_append] at hf
  exact ⟨new, hp, hf⟩

/-- Witness for C3: three arrivals with a timer expiry in between, threshold 2. -/
theorem fifo_delivery_witness :
    ∃ new : List PostMessage,
      (run doubling worker2 [.recv att1, .tick, .recv att2, .recv att3, .recv att1]
        ).Client.posted = worker2.Client.posted ++ new ∧
      (new.map (fun m => m.Attachments.elems)).flatten ++
          pending (run doubling worker2
            [.recv att1, .tick, .recv att2, .recv att3, .recv att1]) =
        received [.recv att1, .tick, .recv att2, .recv att3, .recv att1] :=
  fifo_delivery doubling worker2 [.recv att1, .tick, .recv att2, .recv att3, .recv att1]
    (by decide)

/-! ## Batch-size invariant -/

/-- C9. Batch-size invariant: with threshold `B ≥ 1` and an empty batch at the start,
after every sequence of completed worker steps the pending batch is strictly shorter
than `B`, and inside the next step, right after the append of line 129 (the only
statement that grows the batch), it is at most `B` long. -/
theorem batch_size_invariant (growslice : Nat → Nat → Nat) (w : Worker) (es : List Event)
    (hB : 1 ≤ w.Batch) (hempty : pending w = []) :
    ((pending (run growslice w es)).length : Int) < w.Batch ∧
      ∀ a : Attachment,
        ((pending (appendMsg growslice (run growslice w es) a)).length : Int) ≤ w.Batch := by
  have h := run_below growslice es w hB (by rw [hempty]; simp; omega)
  refine ⟨h, ?_⟩
  intro a
  rw [pending_appendMsg]
  simp
  omega

/-- Witness for C9: threshold 2, three arrivals and a timer expiry. -/
theorem batch_size_invariant_witness :
    ((pending (run doubling worker2 [.recv att1, .recv att2, .tick, .recv att3])).length
        : Int) < worker2.Batch ∧
      ∀ a : Attachment,
        ((pending (appendMsg doubling
          (run doubling worker2 [.recv att1, .recv att2, .tick, .recv att3]) a)).length
            : Int) ≤ worker2.Batch :=
  batch_size_invariant doubling worker2 [.recv att1, .recv att2, .tick, .recv att3]
    (by decide) (by decide)

/-! ## `Fire` -/

/-- On a started, enabled hook `Fire` sends the formatted entry on the channel. -/
theorem Fire_running {Time Value : Type} (lib : Fmt Time Value) (rh : RocketrusHook)
    (e : Entry Time Value) (ch : Chan) (hd : rh.Disabled = false) (hr : rh.running = true)
    (hc : rh.msgChan = some ch) (hroom : ch.buf.length < ch.cap) :
    Fire lib rh e = .returned
      { rh with msgChan := some { ch with buf := ch.buf ++ [format lib e] } } none := by
  unfold Fire
  simp [hd, hr, hc, hroom]

/-- C4, as the code has it. On a hook that is not disabled and on which `Run` has not
completed successfully, `Fire` returns `NotRunningErr`, and the hook, its inbound queue
included, is as before. -/
theorem Fire_not_running {Time Value : Type} (lib : Fmt Time Value) (rh : RocketrusHook)
    (e : Entry Time Value) (hd : rh.Disabled = false) (hr : rh.running = false) :
    Fire lib rh e = .returned rh (some Error.NotRunningErr) ∧
      queued (Fire lib rh e).hook = queued rh := by
  have h : Fire lib rh e = .returned rh (some Error.NotRunningErr) := by
    unfold Fire
    simp [hd, hr]
  exact ⟨h, by rw [h]; rfl⟩

/-- Witness for C4 as amended: a fresh, enabled hook. -/
theorem Fire_not_running_witness :
    Fire strFmt hookFresh entryAccents = .returned hookFresh (some Error.NotRunningErr) ∧
      queued (Fire strFmt hookFresh entryAccents).hook = queued hookFresh :=
  Fire_not_running strFmt hookFresh entryAccents (by decide) (by decide)

/-- C4 as stated fails: on a disabled hook that was never started `Fire` returns no
error, not `NotRunningErr`. -/
theorem Fire_not_running_counterexample :
    hookDisabled.running = false ∧
      Fire strFmt hookDisabled entryAccents = .returned hookDisabled none ∧
      Fire strFmt hookDisabled entryAccents ≠
        .returned hookDisabled (some Error.NotRunningErr) := by
  decide

/-- C5. On a disabled hook, started or not, `Fire` returns no error and leaves the
hook, its inbound queue included, exactly as it was. -/
theorem Fire_disabled {Time Value : Type} (lib : Fmt Time Value) (rh : RocketrusHook)
    (e : Entry Time Value) (hd : rh.Disabled = true) :
    Fire lib rh e = .returned rh none ∧ (Fire lib rh e).hook = rh ∧
      queued (Fire lib rh e).hook = queued rh := by
  have h : Fire lib rh e = .returned rh none := by
    unfold Fire
    simp [hd]
  exact ⟨h, by rw [h]; rfl, by rw [h]; rfl⟩

/-- Witness for C5: a disabled hook that was never started. -/
theorem Fire_disabled_witness :
    Fire strFmt hookDisabled entryAccents = .returned hookDisabled none ∧
      (Fire strFmt hookDisabled entryAccents).hook = hookDisabled ∧
      queued (Fire strFmt hookDisabled entryAccents).hook = queued hookDisabled :=
  Fire_disabled strFmt hookDisabled entryAccents (by decide)

/-- C6, as the code has it. Severity-to-color mapping: the color of the attachment built
from an entry is `color` of its level, hence a function of the level alone; it is one of
purple, green, red, yellow; the debug tier gives purple, info green, error, fatal and
panic red, warning yellow, and so does every level other than debug, info, error, fatal
and panic, a tier below debug included. -/
theorem severity_color {Time Value : Type} (lib : Fmt Time Value) (e : Entry Time Value) :
    (format lib e).Color = color e.Level ∧
      color e.Level ∈ ["purple", "green", "red", "yellow"] ∧
      color DebugLevel = "purple" ∧ color InfoLevel = "green" ∧
      color ErrorLevel = "red" ∧ color FatalLevel = "red" ∧ color PanicLevel = "red" ∧
      color WarnLevel = "yellow" ∧
      ∀ l : Level, l ≠ DebugLevel → l ≠ InfoLevel → l ≠ ErrorLevel → l ≠ FatalLevel →
        l ≠ PanicLevel → color l = "yellow" := by
  refine ⟨?_, ?_, by decide, by decide, by decide, by decide, by decide, by decide, ?_⟩
  · unfold format
    dsimp only
    split <;> rfl
  · unfold color
    split
    · simp
    · split
      · simp
      · split <;> simp
  · intro l h1 h2 h3 h4 h5
    unfold color
    simp [h1, h2, h3, h4, h5]

/-- Witness for C6 as amended: a debug entry is purple, and the trace level falls to
the default. -/
theorem severity_color_witness :
    (format strFmt entryAccents).Color = "purple" ∧ color TraceLevel = "yellow" :=
  ⟨(severity_color strFmt entryAccents).1,
    (severity_color strFmt entryAccents).2.2.2.2.2.2.2.2 TraceLevel
      (by decide) (by decide) (by decide) (by decide) (by decide)⟩

/-- C6 as stated fails: in the seven-level table the lowest severity tier is trace, and
a trace entry is formatted yellow, not purple; purple goes to debug, which is not the
lowest tier of that table. -/
theorem severity_color_counterexample :
    lowestTier allLevels7 = some TraceLevel ∧ entryTrace.Level = TraceLevel ∧
      (format strFmt entryTrace).Color = "yellow" ∧
      (format strFmt entryTrace).Color ≠ "purple" ∧
      lowestTier allLevels7 ≠ some DebugLevel ∧ color DebugLevel = "purple" := by
  decide

/-- C7, as the code has it. The field records are built pair by pair from the data, in
the order the pairs are visited; the record of a pair carries its key, the rendering of
its value, and `Short` is true exactly when that rendering is at most 20 bytes long. -/
theorem short_field {Time Value : Type} (lib : Fmt Time Value) (e : Entry Time Value) :
    (format lib e).Fields = e.Data.map (mkField lib) ∧
      ∀ kv : String × Value,
        (mkField lib kv).Title = kv.1 ∧ (mkField lib kv).Value = lib.Sprint kv.2 ∧
          ((mkField lib kv).Short = true ↔ (lib.Sprint kv.2).utf8ByteSize ≤ 20) := by
  refine ⟨?_, ?_⟩
  · unfold format
    dsimp only
    split
    · rfl
    · next h =>
      have : e.Data = [] := List.length_eq_zero.mp (by omega)
      rw [this]
      rfl
  · intro kv
    unfold mkField
    dsimp only
    split
    · next h => exact ⟨rfl, rfl, by simp [h]⟩
    · next h => exact ⟨rfl, rfl, by simp [h]⟩

/-- C7 as stated fails: a value of 11 characters (22 bytes) gets `Short = false`. -/
theorem short_field_counterexample :
    (format strFmt entryAccents).Fields =
        [{ Short := false, Title := "k", Value := "ééééééééééé" }] ∧
      "ééééééééééé".length ≤ 20 ∧
      ¬ (∀ f ∈ (format strFmt entryAccents).Fields,
          (f.Short = true ↔ f.Value.length ≤ 20)) := by
  decide

/-! ## `Run` -/

/-- A failed login aborts `Run`: the error is returned, and the thresholds, the
running flag, the message and the channel are as before. -/
theorem Run_login_error (Login : Client → UserCredentials → Client × UserCredentials × Option Error)
    (rh : RocketrusHook) (err : Error) (h : (Run Login rh).2 = some err) :
    (Run Login rh).1.running = rh.running ∧ (Run Login rh).1.Batch = rh.Batch ∧
      (Run Login rh).1.Duration = rh.Duration ∧ (Run Login rh).1.msg = rh.msg ∧
      (Run Login rh).1.msgChan = rh.msgChan := by
  unfold Run at h ⊢
  dsimp only at h ⊢
  split
  · exact ⟨rfl, rfl, rfl, rfl, rfl⟩
  · next c u hL =>
    rw [hL] at h
    simp at h

/-- C8. Default resolution on start: after a successful `Run`, `Batch` is 8 if it was
configured `≤ 0` and the configured value otherwise, `Duration` is 10 if it was
configured 0 and the configured value otherwise; so `Batch ≥ 1`, `Duration ≠ 0`, and
the hook is running. -/
theorem Run_defaults (Login : Client → UserCredentials → Client × UserCredentials × Option Error)
    (rh : RocketrusHook) (h : (Run Login rh).2 = none) :
    (Run Login rh).1.Batch = (if rh.Batch ≤ 0 then 8 else rh.Batch) ∧
      (Run Login rh).1.Duration = (if rh.Duration = 0 then 10 else rh.Duration) ∧
      1 ≤ (Run Login rh).1.Batch ∧ (Run Login rh).1.Duration ≠ 0 ∧
      (Run Login rh).1.running = true := by
  unfold Run at h ⊢
  dsimp only at h ⊢
  split
  · next err hL =>
    rw [hL] at h
    simp at h
  · next c u hL =>
    dsimp only
    by_cases hb : rh.Batch ≤ 0 <;> by_cases hd : rh.Duration = 0 <;>
      simp [hb, hd] <;> omega

/-- Witness for C8: a hook configured with `Batch = -3` and `Duration = 0`. -/
theorem Run_defaults_witness :
    (Run loginOk hookFresh).1.Batch = (if hookFresh.Batch ≤ 0 then 8 else hookFresh.Batch) ∧
      (Run loginOk hookFresh).1.Duration =
        (if hookFresh.Duration = 0 then 10 else hookFresh.Duration) ∧
      1 ≤ (Run loginOk hookFresh).1.Batch ∧ (Run loginOk hookFresh).1.Duration ≠ 0 ∧
      (Run loginOk hookFresh).1.running = true :=
  Run_defaults loginOk hookFresh (by decide)

/-- The worker that a successful `Run` launches starts with threshold `Batch ≥ 1`
and an empty batch. -/
theorem Run_sendInit (Login : Client → UserCredentials → Client × UserCredentials × Option Error)
    (rh : RocketrusHook) (h : (Run Login rh).2 = none) :
    ∃ w, sendInit (Run Login rh).1 = some w ∧ w.Batch = (Run Login rh).1.Batch ∧
      1 ≤ w.Batch ∧ pending w = [] ∧ w.Client.posted = (match (Run Login rh).1.Client with
        | some c => c.posted
        | none => []) := by
  unfold Run at h ⊢
  dsimp only at h ⊢
  split
  · next err hL =>
    rw [hL] at h
    simp at h
  · next c u hL =>
    dsimp only
    unfold sendInit
    dsimp only
    by_cases hb : rh.Batch ≤ 0 <;> by_cases hd : rh.Duration = 0 <;>
      by_cases hn : rh.Duration < 0 <;>
      simp [hb, hd, hn, pending] <;> omega

/-! ## `LevelThreshold` -/

/-- C10. With `logrus.AllLevels` listing the levels in order of their values (panic = 0
first) and `l` one of them, `LevelThreshold l` returns the first `l+1` entries of the
table, which are the levels from panic down to `l`: a level is in the result exactly
when its value is at most `l`, that is when it is `l` or more severe. -/
theorem LevelThreshold_spec (AllLevels : List Level) (l : Level)
    (hAll : AllLevels = List.range AllLevels.length) (hlen : AllLevels.length < 2 ^ 32)
    (hl : l < AllLevels.length) :
    LevelThreshold AllLevels l = some (AllLevels.take (l + 1)) ∧
      AllLevels.take (l + 1) = List.range (l + 1) ∧
      ∀ x : Level, x ∈ AllLevels.take (l + 1) ↔ x ≤ l := by
  have hl2 : @LT.lt Nat _ l AllLevels.length := hl
  have hmod : (l + 1) % 2 ^ 32 = l + 1 := Nat.mod_eq_of_lt (by omega)
  have htake : AllLevels.take (l + 1) = List.range (l + 1) := by
    conv_lhs => rw [hAll]
    rw [List.take_range, Nat.min_eq_left (by omega)]
  refine ⟨?_, htake, ?_⟩
  · unfold LevelThreshold
    dsimp only
    rw [hmod, if_pos (by omega)]
  · intro x
    rw [htake, List.mem_range]
    exact Nat.lt_succ_iff

/-- Witness for C10: the seven-level table and the warning level. -/
theorem LevelThreshold_spec_witness :
    LevelThreshold allLevels7 WarnLevel = some [0, 1, 2, 3] ∧
      allLevels7.take (WarnLevel + 1) = List.range (WarnLevel + 1) ∧
      ∀ x : Level, x ∈ allLevels7.take (WarnLevel + 1) ↔ x ≤ WarnLevel :=
  LevelThreshold_spec allLevels7 WarnLevel (by decide) (by decide) (by decide)

end Rocketrus
